import Mathlib

/-!
Verification of the route discovery and pricing engine of `swap_agent.py`
(class `SwapAgent`): the pool catalog, the constant-product direct-route
pricing, the two-hop route composition, validation, selection and result
assembly of `find_best_swap_route`.  Amounts, reserves and fees are embedded
as rationals; the catch-all `except` of `find_best_swap_route` is embedded by
computing the route search in `Except String`, where the only failure the
search can raise is the division by zero a degenerate pool would cause.
-/

/-- `Pool` dataclass of `swap_agent.py`. -/
structure Pool where
  name : String
  token_a : String
  token_b : String
  reserve_a : ℚ
  reserve_b : ℚ
  fee : ℚ
  dex : String
deriving DecidableEq, Repr

/-- `SwapRoute` dataclass of `swap_agent.py`. -/
structure SwapRoute where
  path : List String
  pools : List String
  estimated_output : ℚ
  price_impact : ℚ
  gas_cost_usd : ℚ
  total_fee : ℚ
deriving DecidableEq, Repr

/-- The `route_details` dictionary assembled by `find_best_swap_route` on
success. -/
structure RouteDetails where
  path : List String
  pools : List String
  estimated_output : ℚ
  price_impact : ℚ
  gas_cost_usd : ℚ
  total_fee : ℚ
  input_amount : ℚ
  input_token : String
  output_token : String
  exchange_rate : ℚ
  minimum_output : ℚ
  route_type : String
deriving DecidableEq, Repr

/-- One entry of the `alternatives` list of a successful result. -/
structure AltRoute where
  path : List String
  estimated_output : ℚ
  dex : String
deriving DecidableEq, Repr

/-- The structured dictionaries `find_best_swap_route` returns, one
constructor per distinct shape. -/
inductive SwapResult where
  | success (route_details : RouteDetails) (alternatives : List AltRoute)
  | unsupportedToken (error : String) (supported_tokens : List String)
  | sameToken (error : String)
  | invalidAmount (error : String)
  | routeNotFound (error : String) (suggestion : String)
  | internalError (error : String) (suggestion : String)
deriving DecidableEq, Repr

/-- `self.supported_tokens` of `SwapAgent.__init__`. -/
def supported_tokens : List String := ["WETH", "ETH", "USDC", "RISE"]

/-- `self.token_prices` of `SwapAgent.__init__` (`dict.get` default 0). -/
def token_prices (t : String) : ℚ :=
  if t = "WETH" then 2000
  else if t = "ETH" then 2000
  else if t = "USDC" then 1
  else if t = "RISE" then 1/20
  else 0

/-- `SwapAgent._initialize_pools`: the seven built-in pools, in catalog
order (uniswap, sushiswap, 1inch). -/
def initialize_pools : List Pool :=
  [⟨"WETH/USDC", "WETH", "USDC", 1000, 2000000, 3/10, "uniswap"⟩,
   ⟨"WETH/RISE", "WETH", "RISE", 100, 4000000, 3/10, "uniswap"⟩,
   ⟨"USDC/RISE", "USDC", "RISE", 50000, 1000000, 3/10, "uniswap"⟩,
   ⟨"WETH/USDC", "WETH", "USDC", 800, 1600000, 1/4, "sushiswap"⟩,
   ⟨"RISE/USDC", "RISE", "USDC", 2000000, 100000, 1/4, "sushiswap"⟩,
   ⟨"WETH/USDC", "WETH", "USDC", 1200, 2400000, 1/10, "1inch"⟩,
   ⟨"RISE/WETH", "RISE", "WETH", 5000000, 125, 1/5, "1inch"⟩]

/-- The two keys of `base_gas` in `SwapAgent._estimate_gas_cost`. -/
inductive RouteKind where
  | direct
  | multihop
deriving DecidableEq, Repr

/-- `SwapAgent._estimate_gas_cost`: gas units times 5 gwei, converted to
USD at the WETH price of the token price table. -/
def estimate_gas_cost : RouteKind → ℚ
  | .direct => 50000 * 5 / 1000000000 * token_prices "WETH"
  | .multihop => 100000 * 5 / 1000000000 * token_prices "WETH"

/-- `fee_multiplier = (10000 - pool.fee * 100) / 10000` of
`_find_direct_routes`. -/
def feeMultiplier (fee : ℚ) : ℚ := (10000 - fee * 100) / 10000

/-- The per-hop constant-product output of `_find_direct_routes`:
`(reserve_out * amount_with_fee) / (reserve_in + amount_with_fee)`. -/
def swapOutput (reserveIn reserveOut fee amount : ℚ) : ℚ :=
  reserveOut * (amount * feeMultiplier fee) / (reserveIn + amount * feeMultiplier fee)

/-- The pool-matching test of `_find_direct_routes`: the pair
`{token_a, token_b}` equals `{from, to}` in either orientation. -/
def poolMatches (p : Pool) (f t : String) : Bool :=
  decide ((p.token_a = f ∧ p.token_b = t) ∨ (p.token_a = t ∧ p.token_b = f))

/-- Reserve orientation of `_find_direct_routes`: `(reserve_in, reserve_out)`
with `reserve_in` on the `from` side. -/
def reservesFor (p : Pool) (f : String) : ℚ × ℚ :=
  if p.token_a = f then (p.reserve_a, p.reserve_b) else (p.reserve_b, p.reserve_a)

/-- The `f"{pool.dex}:{pool.name}"` pool identifier. -/
def poolId (p : Pool) : String := p.dex ++ ":" ++ p.name

/-- `SwapAgent._find_direct_routes`: one route per matching pool, in catalog
order; a zero denominator is Python's `ZeroDivisionError`. -/
def find_direct_routes : List Pool → String → String → ℚ → Except String (List SwapRoute)
  | [], _, _, _ => .ok []
  | p :: ps, f, t, amount =>
    if poolMatches p f t then
      if (reservesFor p f).1 + amount * feeMultiplier p.fee = 0 then
        .error "float division by zero"
      else do
        let rest ← find_direct_routes ps f t amount
        pure ({ path := [f, t],
                pools := [poolId p],
                estimated_output := swapOutput (reservesFor p f).1 (reservesFor p f).2 p.fee amount,
                price_impact := amount / (reservesFor p f).1 * 100,
                gas_cost_usd := estimate_gas_cost .direct,
                total_fee := p.fee } :: rest)
    else find_direct_routes ps f t amount

/-- The `intermediate_tokens` list of `_find_multi_hop_routes`. -/
def intermediate_tokens : List String := ["WETH", "USDC", "USDT"]

/-- The combined two-hop route built by `_find_multi_hop_routes`. -/
def combine_route (f i t : String) (fr sr : SwapRoute) : SwapRoute :=
  { path := [f, i, t],
    pools := fr.pools ++ sr.pools,
    estimated_output := sr.estimated_output,
    price_impact := fr.price_impact + sr.price_impact,
    gas_cost_usd := estimate_gas_cost .multihop,
    total_fee := fr.total_fee + sr.total_fee }

/-- The inner loop of `_find_multi_hop_routes` over the first-hop routes:
skip a first hop with non-positive output, price the second hop on the first
hop's output, keep the second hops with positive output. -/
def second_hop_pass (pools : List Pool) (f i t : String) :
    List SwapRoute → Except String (List SwapRoute)
  | [] => .ok []
  | fr :: rest =>
    if fr.estimated_output ≤ 0 then second_hop_pass pools f i t rest
    else do
      let seconds ← find_direct_routes pools i t fr.estimated_output
      let tail ← second_hop_pass pools f i t rest
      pure ((seconds.filter fun sr => decide (0 < sr.estimated_output)).map
              (combine_route f i t fr) ++ tail)

/-- The outer loop of `_find_multi_hop_routes` over the intermediate tokens,
skipping an intermediate equal to either endpoint. -/
def multi_hop_over : List Pool → String → String → ℚ → List String → Except String (List SwapRoute)
  | _, _, _, _, [] => .ok []
  | pools, f, t, amount, i :: rest =>
    if i = f ∨ i = t then multi_hop_over pools f t amount rest
    else do
      let firsts ← find_direct_routes pools f i amount
      let here ← second_hop_pass pools f i t firsts
      let tail ← multi_hop_over pools f t amount rest
      pure (here ++ tail)

/-- `SwapAgent._find_multi_hop_routes`. -/
def find_multi_hop_routes (pools : List Pool) (f t : String) (amount : ℚ) :
    Except String (List SwapRoute) :=
  multi_hop_over pools f t amount intermediate_tokens

/-- The `'WETH' if token == 'ETH' else token` normalization of
`find_best_swap_route`. -/
def normalize_token (s : String) : String := if s = "ETH" then "WETH" else s

/-- `max(all_routes, key=lambda r: r.estimated_output)`: Python's `max`
keeps the current element unless a later one is strictly greater, so the
first maximal element wins. -/
def python_max (r : SwapRoute) (rs : List SwapRoute) : SwapRoute :=
  rs.foldl (fun acc x => if acc.estimated_output < x.estimated_output then x else acc) r

/-- The `route_details` dictionary of a successful `find_best_swap_route`. -/
def mk_route_details (from_token to_token : String) (amount : ℚ) (best : SwapRoute) :
    RouteDetails :=
  { path := best.path,
    pools := best.pools,
    estimated_output := best.estimated_output,
    price_impact := best.price_impact,
    gas_cost_usd := best.gas_cost_usd,
    total_fee := best.total_fee,
    input_amount := amount,
    input_token := from_token,
    output_token := to_token,
    exchange_rate := best.estimated_output / amount,
    minimum_output := best.estimated_output * (995/1000),
    route_type := if best.path.length = 2 then "direct" else "multi-hop" }

/-- Stable insertion into a list sorted by descending `estimated_output`:
the inserted element goes before the first element it is not below. -/
def insert_desc (x : SwapRoute) : List SwapRoute → List SwapRoute
  | [] => [x]
  | y :: ys =>
    if y.estimated_output ≤ x.estimated_output then x :: y :: ys
    else y :: insert_desc x ys

/-- Python's `sorted(all_routes, key=lambda r: r.estimated_output,
reverse=True)`: a stable descending sort. -/
def sort_desc : List SwapRoute → List SwapRoute
  | [] => []
  | x :: xs => insert_desc x (sort_desc xs)

/-- The `alternatives` list of a successful result: top three candidates by
descending output, each reduced to path, output and first pool id. -/
def mk_alternatives (all : List SwapRoute) : List AltRoute :=
  ((sort_desc all).take 3).map fun r =>
    { path := r.path, estimated_output := r.estimated_output, dex := r.pools.headD "unknown" }

/-- The body of the `try` block of `find_best_swap_route`: direct routes,
then multi-hop routes, merged in that order. -/
def route_search (pools : List Pool) (f t : String) (amount : ℚ) :
    Except String (List SwapRoute) := do
  let direct ← find_direct_routes pools f t amount
  let multi ← find_multi_hop_routes pools f t amount
  pure (direct ++ multi)

/-- `SwapAgent.find_best_swap_route`: normalization, the three validation
checks in order, then search, selection and result assembly, with the
`except` clause embedded as the `internalError` branch. -/
def find_best_swap_route (pools : List Pool) (from_token to_token : String) (amount : ℚ) :
    SwapResult :=
  if normalize_token from_token ∉ supported_tokens ∨
     normalize_token to_token ∉ supported_tokens then
    .unsupportedToken ("Unsupported token: " ++ from_token ++ " or " ++ to_token)
      supported_tokens
  else if normalize_token from_token = normalize_token to_token then
    .sameToken "Source and target token cannot be the same"
  else if amount ≤ 0 then
    .invalidAmount "Amount must be greater than 0"
  else
    match route_search pools (normalize_token from_token) (normalize_token to_token) amount with
    | .error e => .internalError ("Rota hesaplama hatası: " ++ e) "Lütfen tekrar deneyin"
    | .ok [] => .routeNotFound "Bu token çifti için rota bulunamadı"
        "Farklı tokenlar deneyin veya miktarı azaltın"
    | .ok (r :: rs) =>
      .success (mk_route_details from_token to_token amount (python_max r rs))
        (mk_alternatives (r :: rs))

/-- The candidate a matching pool contributes, written with the formulas of
claim C1: `a = amount * (10000 - fee*100)/10000`, output
`reserveOut * a / (reserveIn + a)`, impact `amount / reserveIn * 100`, total
fee the pool's fee. -/
def claimDirectRoute (f t : String) (amount : ℚ) (p : Pool) : SwapRoute :=
  { path := [f, t],
    pools := [poolId p],
    estimated_output :=
      (reservesFor p f).2 * (amount * ((10000 - p.fee * 100) / 10000)) /
        ((reservesFor p f).1 + amount * ((10000 - p.fee * 100) / 10000)),
    price_impact := amount / (reservesFor p f).1 * 100,
    gas_cost_usd := estimate_gas_cost .direct,
    total_fee := p.fee }

/-- The direct candidates of the spec: exactly one route per matching pool,
in catalog order. -/
def direct_route_candidates (pools : List Pool) (f t : String) (amount : ℚ) :
    List SwapRoute :=
  (pools.filter fun p => poolMatches p f t).map (claimDirectRoute f t amount)

/-- The second-hop combinations of one first-hop route, per the spec: every
direct route `i -> t` on the first hop's output whose output is positive. -/
def second_hop_candidates (pools : List Pool) (f i t : String) (fr : SwapRoute) :
    List SwapRoute :=
  ((direct_route_candidates pools i t fr.estimated_output).filter fun sr =>
    decide (0 < sr.estimated_output)).map (combine_route f i t fr)

/-- All two-hop candidates through one intermediate token. -/
def hops_via (pools : List Pool) (f t : String) (amount : ℚ) (i : String) :
    List SwapRoute :=
  ((direct_route_candidates pools f i amount).filter fun fr =>
    decide (0 < fr.estimated_output)).flatMap (second_hop_candidates pools f i t)

/-- The multi-hop candidates of the spec: for each intermediate token
distinct from both endpoints, the composition of positive-output first hops
with positive-output second hops. -/
def multi_hop_candidates (pools : List Pool) (f t : String) (amount : ℚ) :
    List SwapRoute :=
  (intermediate_tokens.filter fun i => decide (i ≠ f ∧ i ≠ t)).flatMap
    (hops_via pools f t amount)

/-- `route_details` extractor for stating concrete results. -/
def result_pools : SwapResult → Option (List String)
  | .success rd _ => some rd.pools
  | _ => none

def result_route_type : SwapResult → Option String
  | .success rd _ => some rd.route_type
  | _ => none

def result_input_token : SwapResult → Option String
  | .success rd _ => some rd.input_token
  | _ => none

/-- Replace the `input_token` echo field of a successful result, the identity
on failures. -/
def set_input_token (s : String) : SwapResult → SwapResult
  | .success rd alts => .success { rd with input_token := s } alts
  | r => r

def is_internal_error : SwapResult → Bool
  | .internalError _ _ => true
  | _ => false

/-- The three WETH/USDC pools of the catalog, named for the concrete
statements below. -/
def wethUsdcUni : Pool := ⟨"WETH/USDC", "WETH", "USDC", 1000, 2000000, 3/10, "uniswap"⟩

def wethUsdcSushi : Pool := ⟨"WETH/USDC", "WETH", "USDC", 800, 1600000, 1/4, "sushiswap"⟩

def wethUsdcOneInch : Pool := ⟨"WETH/USDC", "WETH", "USDC", 1200, 2400000, 1/10, "1inch"⟩

/-- The selection contract of claim C3 at one query: if the merged candidate
list is empty the call fails with the route-not-found result; otherwise it
succeeds with the details of a candidate that dominates every candidate and
is the first maximal one in generation order. -/
def selection_spec (f t : String) (a : ℚ) : Prop :=
  match direct_route_candidates initialize_pools (normalize_token f) (normalize_token t) a ++
        multi_hop_candidates initialize_pools (normalize_token f) (normalize_token t) a with
  | [] => find_best_swap_route initialize_pools f t a =
      .routeNotFound "Bu token çifti için rota bulunamadı"
        "Farklı tokenlar deneyin veya miktarı azaltın"
  | r :: rs => ∃ best alts l₁ l₂,
      find_best_swap_route initialize_pools f t a =
        .success (mk_route_details f t a best) alts ∧
      (∀ s ∈ r :: rs, s.estimated_output ≤ best.estimated_output) ∧
      r :: rs = l₁ ++ best :: l₂ ∧
      ∀ s ∈ l₁, s.estimated_output < best.estimated_output

/-- The registry invariant of the spec: strictly positive reserves (and a
fee below 100%, which every catalog pool satisfies). -/
def PoolInvariant (pools : List Pool) : Prop :=
  ∀ p ∈ pools, 0 < p.reserve_a ∧ 0 < p.reserve_b ∧ p.fee < 100

lemma builtin_invariant : PoolInvariant initialize_pools := by
  unfold PoolInvariant initialize_pools
  with_unfolding_all decide

lemma feeMultiplier_pos {fee : ℚ} (h : fee < 100) : 0 < feeMultiplier fee := by
  unfold feeMultiplier
  have h1 : (0:ℚ) < 10000 - fee * 100 := by linarith
  exact div_pos h1 (by norm_num)

lemma reservesFor_fst_pos {p : Pool} (h1 : 0 < p.reserve_a) (h2 : 0 < p.reserve_b)
    (f : String) : 0 < (reservesFor p f).1 := by
  unfold reservesFor
  split
  · exact h1
  · exact h2

/-- Under the registry invariant and a positive amount the direct search of
the source never divides by zero and enumerates exactly the spec's
candidates. -/
lemma find_direct_routes_ok (pools : List Pool) (f t : String) (a : ℚ)
    (hinv : PoolInvariant pools) (ha : 0 < a) :
    find_direct_routes pools f t a = .ok (direct_route_candidates pools f t a) := by
  induction pools with
  | nil => rfl
  | cons p ps ih =>
    obtain ⟨hra, hrb, hfee⟩ := hinv p (List.mem_cons_self p ps)
    have hps : PoolInvariant ps := fun q hq => hinv q (List.mem_cons_of_mem p hq)
    have hden : ¬((reservesFor p f).1 + a * feeMultiplier p.fee = 0) :=
      ne_of_gt (add_pos (reservesFor_fst_pos hra hrb f) (mul_pos ha (feeMultiplier_pos hfee)))
    by_cases hm : poolMatches p f t = true
    · have hflt : List.filter (fun q => poolMatches q f t) (p :: ps) =
          p :: List.filter (fun q => poolMatches q f t) ps :=
        List.filter_cons_of_pos hm
      rw [find_direct_routes, if_pos hm, if_neg hden, ih hps]
      unfold direct_route_candidates
      rw [hflt, List.map_cons]
      rfl
    · have hflt : List.filter (fun q => poolMatches q f t) (p :: ps) =
          List.filter (fun q => poolMatches q f t) ps :=
        List.filter_cons_of_neg hm
      rw [find_direct_routes, if_neg hm, ih hps]
      unfold direct_route_candidates
      rw [hflt]

lemma except_ok_bind {α β : Type} (x : α) (k : α → Except String β) :
    (Except.ok x >>= k) = k x := rfl

/-- The first-hop loop of the source equals the spec's composition of the
positive-output first hops with their second-hop candidates. -/
lemma second_hop_pass_ok (pools : List Pool) (f i t : String) (hinv : PoolInvariant pools) :
    ∀ frs : List SwapRoute, second_hop_pass pools f i t frs =
      .ok ((frs.filter fun fr => decide (0 < fr.estimated_output)).flatMap
            (second_hop_candidates pools f i t)) := by
  intro frs
  induction frs with
  | nil => rfl
  | cons fr rest ih =>
    by_cases h : fr.estimated_output ≤ 0
    · have hflt : List.filter (fun fr => decide (0 < fr.estimated_output)) (fr :: rest) =
          List.filter (fun fr => decide (0 < fr.estimated_output)) rest :=
        List.filter_cons_of_neg (by simpa using h)
      rw [second_hop_pass, if_pos h, ih, hflt]
    · have hpos : 0 < fr.estimated_output := not_le.mp h
      have hflt : List.filter (fun fr => decide (0 < fr.estimated_output)) (fr :: rest) =
          fr :: List.filter (fun fr => decide (0 < fr.estimated_output)) rest :=
        List.filter_cons_of_pos (by simpa using hpos)
      rw [second_hop_pass, if_neg h]
      simp only [find_direct_routes_ok pools i t fr.estimated_output hinv hpos,
        except_ok_bind, ih, hflt, List.flatMap_cons]
      rfl

/-- The intermediate-token loop of the source equals the spec's flat map over
the intermediates distinct from both endpoints. -/
lemma multi_hop_over_ok (pools : List Pool) (f t : String) (a : ℚ)
    (hinv : PoolInvariant pools) (ha : 0 < a) :
    ∀ toks : List String, multi_hop_over pools f t a toks =
      .ok ((toks.filter fun i => decide (i ≠ f ∧ i ≠ t)).flatMap (hops_via pools f t a)) := by
  intro toks
  induction toks with
  | nil => rfl
  | cons i rest ih =>
    by_cases h : i = f ∨ i = t
    · have hni : ¬(i ≠ f ∧ i ≠ t) := fun hc => h.elim (fun h1 => hc.1 h1) (fun h2 => hc.2 h2)
      have hflt : List.filter (fun j => decide (j ≠ f ∧ j ≠ t)) (i :: rest) =
          List.filter (fun j => decide (j ≠ f ∧ j ≠ t)) rest :=
        List.filter_cons_of_neg (by simpa using hni)
      rw [multi_hop_over, if_pos h, ih, hflt]
    · have hi : i ≠ f ∧ i ≠ t := by
        constructor
        · exact fun hc => h (Or.inl hc)
        · exact fun hc => h (Or.inr hc)
      have hflt : List.filter (fun j => decide (j ≠ f ∧ j ≠ t)) (i :: rest) =
          i :: List.filter (fun j => decide (j ≠ f ∧ j ≠ t)) rest :=
        List.filter_cons_of_pos (by simpa using hi)
      rw [multi_hop_over, if_neg h]
      simp only [find_direct_routes_ok pools f i a hinv ha, except_ok_bind,
        second_hop_pass_ok pools f i t hinv, ih, hflt, List.flatMap_cons]
      rfl

lemma find_multi_hop_routes_ok (pools : List Pool) (f t : String) (a : ℚ)
    (hinv : PoolInvariant pools) (ha : 0 < a) :
    find_multi_hop_routes pools f t a = .ok (multi_hop_candidates pools f t a) := by
  unfold find_multi_hop_routes multi_hop_candidates
  exact multi_hop_over_ok pools f t a hinv ha intermediate_tokens

lemma route_search_ok (pools : List Pool) (f t : String) (a : ℚ)
    (hinv : PoolInvariant pools) (ha : 0 < a) :
    route_search pools f t a =
      .ok (direct_route_candidates pools f t a ++ multi_hop_candidates pools f t a) := by
  unfold route_search
  rw [find_direct_routes_ok pools f t a hinv ha]
  simp only [except_ok_bind, find_multi_hop_routes_ok pools f t a hinv ha]
  rfl

lemma python_max_cons (r x : SwapRoute) (xs : List SwapRoute) :
    python_max r (x :: xs) =
      python_max (if r.estimated_output < x.estimated_output then x else r) xs := rfl

/-- `max` returns an element of the list. -/
lemma python_max_mem (r : SwapRoute) (rs : List SwapRoute) : python_max r rs ∈ r :: rs := by
  induction rs generalizing r with
  | nil => simp [python_max]
  | cons x xs ih =>
    rw [python_max_cons]
    by_cases hc : r.estimated_output < x.estimated_output
    · rw [if_pos hc]
      rcases List.mem_cons.mp (ih x) with h | h
      · simp [h, List.mem_cons]
      · simp [List.mem_cons, h]
    · rw [if_neg hc]
      rcases List.mem_cons.mp (ih r) with h | h
      · simp [h, List.mem_cons]
      · simp [List.mem_cons, h]

/-- `max` dominates every element of the list. -/
lemma python_max_ge (r : SwapRoute) (rs : List SwapRoute) :
    ∀ s ∈ r :: rs, s.estimated_output ≤ (python_max r rs).estimated_output := by
  induction rs generalizing r with
  | nil =>
    intro s hs
    rw [List.mem_singleton.mp hs]
    exact le_refl _
  | cons x xs ih =>
    intro s hs
    rw [python_max_cons]
    by_cases hc : r.estimated_output < x.estimated_output
    · rw [if_pos hc]
      rcases List.mem_cons.mp hs with h | h
      · exact h ▸ le_trans (le_of_lt hc) (ih x x (List.mem_cons_self x xs))
      · exact ih x s h
    · rw [if_neg hc]
      rcases List.mem_cons.mp hs with h | h
      · exact ih r s (List.mem_cons.mpr (Or.inl h))
      · rcases List.mem_cons.mp h with h2 | h2
        · exact h2 ▸ le_trans (not_lt.mp hc) (ih r r (List.mem_cons_self r xs))
        · exact ih r s (List.mem_cons.mpr (Or.inr h2))

/-- Python's `max` keeps the first maximal element: everything before it in
the list is strictly below it. -/
lemma python_max_first (r : SwapRoute) (rs : List SwapRoute) :
    ∃ l₁ l₂, r :: rs = l₁ ++ python_max r rs :: l₂ ∧
      ∀ s ∈ l₁, s.estimated_output < (python_max r rs).estimated_output := by
  induction rs generalizing r with
  | nil => exact ⟨[], [], rfl, by simp⟩
  | cons x xs ih =>
    rw [python_max_cons]
    by_cases hc : r.estimated_output < x.estimated_output
    · rw [if_pos hc]
      obtain ⟨l₁, l₂, heq, hlt⟩ := ih x
      refine ⟨r :: l₁, l₂, ?_, ?_⟩
      · rw [List.cons_append, ← heq]
      · intro s hs
        rcases List.mem_cons.mp hs with h | h
        · exact h ▸ lt_of_lt_of_le hc (python_max_ge x xs x (List.mem_cons_self x xs))
        · exact hlt s h
    · rw [if_neg hc]
      obtain ⟨l₁, l₂, heq, hlt⟩ := ih r
      cases l₁ with
      | nil =>
        rw [List.nil_append] at heq
        injection heq with h1 h2
        exact ⟨[], x :: xs, by rw [List.nil_append, ← h1], by simp⟩
      | cons b l₁ =>
        rw [List.cons_append] at heq
        injection heq with h1 h2
        have hb : r.estimated_output < (python_max r xs).estimated_output :=
          h1 ▸ hlt b (List.mem_cons_self b l₁)
        refine ⟨r :: x :: l₁, l₂, ?_, ?_⟩
        · rw [List.cons_append, List.cons_append, ← h2]
        · intro s hs
          rcases List.mem_cons.mp hs with h | h
          · exact h ▸ hb
          · rcases List.mem_cons.mp h with h3 | h3
            · exact h3 ▸ lt_of_le_of_lt (not_lt.mp hc) hb
            · exact hlt s (h1 ▸ List.mem_cons_of_mem b h3)

/-- Once all three validation checks pass, `find_best_swap_route` is the
selection over the merged direct and multi-hop candidate lists. -/
lemma find_best_valid_eq (pools : List Pool) (f t : String) (a : ℚ)
    (hinv : PoolInvariant pools)
    (hf : normalize_token f ∈ supported_tokens) (ht : normalize_token t ∈ supported_tokens)
    (hne : normalize_token f ≠ normalize_token t) (ha : 0 < a) :
    find_best_swap_route pools f t a =
      match direct_route_candidates pools (normalize_token f) (normalize_token t) a ++
            multi_hop_candidates pools (normalize_token f) (normalize_token t) a with
      | [] => .routeNotFound "Bu token çifti için rota bulunamadı"
          "Farklı tokenlar deneyin veya miktarı azaltın"
      | r :: rs => .success (mk_route_details f t a (python_max r rs))
          (mk_alternatives (r :: rs)) := by
  unfold find_best_swap_route
  rw [if_neg (fun h => h.elim (fun h1 => h1 hf) (fun h2 => h2 ht)), if_neg hne,
    if_neg (not_le.mpr ha),
    route_search_ok pools (normalize_token f) (normalize_token t) a hinv ha]
  cases direct_route_candidates pools (normalize_token f) (normalize_token t) a ++
      multi_hop_candidates pools (normalize_token f) (normalize_token t) a with
  | nil => rfl
  | cons r rs => rfl

/-- Normalization never returns the raw alias `"ETH"`. -/
lemma normalize_token_ne_eth (s : String) : normalize_token s ≠ "ETH" := by
  unfold normalize_token
  split
  · intro h
    exact absurd h (by decide)
  · assumption

/-- A direct candidate's fields, read off the spec's construction. -/
lemma mem_direct_candidates {r : SwapRoute} {pools : List Pool} {f t : String} {a : ℚ}
    (h : r ∈ direct_route_candidates pools f t a) :
    ∃ p ∈ pools, poolMatches p f t = true ∧ r = claimDirectRoute f t a p := by
  unfold direct_route_candidates at h
  obtain ⟨p, hp, hpr⟩ := List.mem_map.mp h
  exact ⟨p, List.mem_of_mem_filter hp, (List.mem_filter.mp hp).2, hpr.symm⟩

/-- A multi-hop candidate is a two-hop combination through one of the three
intermediate tokens. -/
lemma mem_multi_candidates {r : SwapRoute} {pools : List Pool} {f t : String} {a : ℚ}
    (h : r ∈ multi_hop_candidates pools f t a) :
    ∃ i ∈ intermediate_tokens, i ≠ f ∧ i ≠ t ∧
      ∃ fr sr, r = combine_route f i t fr sr := by
  unfold multi_hop_candidates at h
  obtain ⟨i, hi, hr⟩ := List.mem_flatMap.mp h
  obtain ⟨hif, hit⟩ : i ≠ f ∧ i ≠ t := by simpa using (List.mem_filter.mp hi).2
  unfold hops_via at hr
  obtain ⟨fr, _, hr2⟩ := List.mem_flatMap.mp hr
  unfold second_hop_candidates at hr2
  obtain ⟨sr, _, hsr⟩ := List.mem_map.mp hr2
  exact ⟨i, List.mem_of_mem_filter hi, hif, hit, fr, sr, hsr.symm⟩

/-- Inversion for a successful call: the reported details are those of one of
the merged candidates. -/
lemma find_best_success_cases (pools : List Pool) (f t : String) (a : ℚ)
    (hinv : PoolInvariant pools) (rd : RouteDetails) (alts : List AltRoute)
    (h : find_best_swap_route pools f t a = .success rd alts) :
    ∃ best, best ∈ direct_route_candidates pools (normalize_token f) (normalize_token t) a ++
        multi_hop_candidates pools (normalize_token f) (normalize_token t) a ∧
      rd = mk_route_details f t a best := by
  unfold find_best_swap_route at h
  by_cases h1 : normalize_token f ∉ supported_tokens ∨ normalize_token t ∉ supported_tokens
  · rw [if_pos h1] at h
    exact absurd h (by simp)
  · rw [if_neg h1] at h
    by_cases h2 : normalize_token f = normalize_token t
    · rw [if_pos h2] at h
      exact absurd h (by simp)
    · rw [if_neg h2] at h
      by_cases h3 : a ≤ 0
      · rw [if_pos h3] at h
        exact absurd h (by simp)
      · rw [if_neg h3] at h
        rw [route_search_ok pools (normalize_token f) (normalize_token t) a hinv
          (not_le.mp h3)] at h
        cases hL : direct_route_candidates pools (normalize_token f) (normalize_token t) a ++
            multi_hop_candidates pools (normalize_token f) (normalize_token t) a with
        | nil =>
          rw [hL] at h
          exact absurd h (by simp)
        | cons r rs =>
          rw [hL] at h
          refine ⟨python_max r rs, hL ▸ python_max_mem r rs, ?_⟩
          have := (SwapResult.success.injEq _ _ _ _).mp h.symm
          exact this.1

/-- C1: for every pool of the registry whose token pair is `{from, to}` in
either orientation and every positive amount, the direct search emits exactly
one candidate per matching pool, in catalog order, with output
`reserveOut * a / (reserveIn + a)` for `a = amount * (10000 - fee*100)/10000`
(`reserveIn` taken on the `from` side), impact `amount / reserveIn * 100` and
total fee the pool's fee — the fields of `claimDirectRoute`. -/
theorem direct_route_enumeration (f t : String) (a : ℚ) (ha : 0 < a) :
    find_direct_routes initialize_pools f t a =
      .ok (direct_route_candidates initialize_pools f t a) :=
  find_direct_routes_ok initialize_pools f t a builtin_invariant ha

theorem direct_route_enumeration_witness :
    find_direct_routes initialize_pools "WETH" "USDC" 1 =
      .ok (direct_route_candidates initialize_pools "WETH" "USDC" 1) :=
  direct_route_enumeration "WETH" "USDC" 1 (by norm_num)

/-- C2: for positive reserves and a fee `0 ≤ f < 100`, the per-hop output is
the claimed `R_out * x * (1 - f/100) / (R_in + x * (1 - f/100))`, stays
strictly below `R_out` for every positive input, and is strictly increasing
in the input for fixed reserves. -/
theorem swap_output_bounded_monotone (R_in R_out fee x₁ x₂ : ℚ)
    (hin : 0 < R_in) (hout : 0 < R_out) (hf0 : 0 ≤ fee) (hf : fee < 100) :
    feeMultiplier fee = 1 - fee / 100 ∧
    (0 < x₁ → swapOutput R_in R_out fee x₁ < R_out) ∧
    (0 < x₁ → x₁ < x₂ → swapOutput R_in R_out fee x₁ < swapOutput R_in R_out fee x₂) := by
  have hm : 0 < feeMultiplier fee := feeMultiplier_pos hf
  refine ⟨?_, ?_, ?_⟩
  · unfold feeMultiplier
    ring
  · intro hx
    have ha : 0 < x₁ * feeMultiplier fee := mul_pos hx hm
    have hden : 0 < R_in + x₁ * feeMultiplier fee := by linarith
    unfold swapOutput
    rw [div_lt_iff hden]
    nlinarith [mul_pos hout hin]
  · intro hx hlt
    have ha1 : 0 < x₁ * feeMultiplier fee := mul_pos hx hm
    have ha2 : x₁ * feeMultiplier fee < x₂ * feeMultiplier fee :=
      mul_lt_mul_of_pos_right hlt hm
    have hd1 : 0 < R_in + x₁ * feeMultiplier fee := by linarith
    have hd2 : 0 < R_in + x₂ * feeMultiplier fee := by linarith
    unfold swapOutput
    rw [div_lt_div_iff hd1 hd2]
    nlinarith [mul_pos (mul_pos hout hin) (sub_pos.mpr ha2)]

theorem swap_output_bounded_monotone_witness :
    swapOutput 1000 2000000 (3/10) 1 < 2000000 ∧
    swapOutput 1000 2000000 (3/10) 1 < swapOutput 1000 2000000 (3/10) 2 :=
  ⟨(swap_output_bounded_monotone 1000 2000000 (3/10) 1 2 (by norm_num) (by norm_num)
      (by norm_num) (by norm_num)).2.1 (by norm_num),
   (swap_output_bounded_monotone 1000 2000000 (3/10) 1 2 (by norm_num) (by norm_num)
      (by norm_num) (by norm_num)).2.2 (by norm_num) (by norm_num)⟩

/-- C4: the three validation checks run in their fixed order, first failure
winning: unsupported token (reported with the supported set), then equal
normalized tokens, then non-positive amount. -/
theorem validation_order (pools : List Pool) (f t : String) (a : ℚ) :
    ((normalize_token f ∉ supported_tokens ∨ normalize_token t ∉ supported_tokens) →
      find_best_swap_route pools f t a =
        .unsupportedToken ("Unsupported token: " ++ f ++ " or " ++ t) supported_tokens) ∧
    (normalize_token f ∈ supported_tokens → normalize_token t ∈ supported_tokens →
      normalize_token f = normalize_token t →
      find_best_swap_route pools f t a =
        .sameToken "Source and target token cannot be the same") ∧
    (normalize_token f ∈ supported_tokens → normalize_token t ∈ supported_tokens →
      normalize_token f ≠ normalize_token t → a ≤ 0 →
      find_best_swap_route pools f t a = .invalidAmount "Amount must be greater than 0") := by
  refine ⟨?_, ?_, ?_⟩
  · intro h
    unfold find_best_swap_route
    rw [if_pos h]
  · intro hf ht heq
    unfold find_best_swap_route
    rw [if_neg (fun h => h.elim (fun h1 => h1 hf) (fun h2 => h2 ht)), if_pos heq]
  · intro hf ht hne hle
    unfold find_best_swap_route
    rw [if_neg (fun h => h.elim (fun h1 => h1 hf) (fun h2 => h2 ht)), if_neg hne, if_pos hle]

theorem validation_order_witness :
    find_best_swap_route initialize_pools "DOGE" "USDC" 1 =
      .unsupportedToken ("Unsupported token: " ++ "DOGE" ++ " or " ++ "USDC")
        supported_tokens ∧
    find_best_swap_route initialize_pools "USDC" "USDC" 5 =
      .sameToken "Source and target token cannot be the same" ∧
    find_best_swap_route initialize_pools "WETH" "USDC" 0 =
      .invalidAmount "Amount must be greater than 0" :=
  ⟨(validation_order initialize_pools "DOGE" "USDC" 1).1 (by decide),
   (validation_order initialize_pools "USDC" "USDC" 5).2.1 (by decide) (by decide) rfl,
   (validation_order initialize_pools "WETH" "USDC" 0).2.2 (by decide) (by decide)
     (by decide) le_rfl⟩

/-- C6: the multi-hop candidates are exactly the spec's two-hop compositions
(`multi_hop_candidates`: intermediates from the fixed triple distinct from
both endpoints, positive-output first and second hops, fields combined by
`combine_route`), and every one of them has a three-token path — never more
than two hops. -/
theorem multi_hop_enumeration (f t : String) (a : ℚ) (ha : 0 < a) :
    find_multi_hop_routes initialize_pools f t a =
      .ok (multi_hop_candidates initialize_pools f t a) ∧
    ∀ r ∈ multi_hop_candidates initialize_pools f t a,
      ∃ i ∈ intermediate_tokens, i ≠ f ∧ i ≠ t ∧ r.path = [f, i, t] := by
  refine ⟨find_multi_hop_routes_ok initialize_pools f t a builtin_invariant ha, ?_⟩
  intro r hr
  obtain ⟨i, hi, hif, hit, fr, sr, hcomb⟩ := mem_multi_candidates hr
  exact ⟨i, hi, hif, hit, by rw [hcomb]; rfl⟩

theorem multi_hop_enumeration_witness :
    find_multi_hop_routes initialize_pools "WETH" "RISE" 1 =
      .ok (multi_hop_candidates initialize_pools "WETH" "RISE" 1) :=
  (multi_hop_enumeration "WETH" "RISE" 1 (by norm_num)).1

/-- C9: the program's registry satisfies the positive-reserve invariant, and
under it every call returns one structured result — the `internalError`
branch that embeds the `except` clause is unreachable for all inputs. -/
theorem structured_results_no_internal_error :
    PoolInvariant initialize_pools ∧
    ∀ f t a, is_internal_error (find_best_swap_route initialize_pools f t a) = false := by
  refine ⟨builtin_invariant, ?_⟩
  intro f t a
  unfold find_best_swap_route
  by_cases h1 : normalize_token f ∉ supported_tokens ∨ normalize_token t ∉ supported_tokens
  · rw [if_pos h1]
    rfl
  · rw [if_neg h1]
    by_cases h2 : normalize_token f = normalize_token t
    · rw [if_pos h2]
      rfl
    · rw [if_neg h2]
      by_cases h3 : a ≤ 0
      · rw [if_pos h3]
        rfl
      · rw [if_neg h3,
          route_search_ok initialize_pools (normalize_token f) (normalize_token t) a
            builtin_invariant (not_le.mp h3)]
        cases direct_route_candidates initialize_pools (normalize_token f)
            (normalize_token t) a ++
            multi_hop_candidates initialize_pools (normalize_token f)
              (normalize_token t) a with
        | nil => rfl
        | cons r rs => rfl

lemma weth_usdc_direct_eval :
    direct_route_candidates initialize_pools "WETH" "USDC" 1 =
      [claimDirectRoute "WETH" "USDC" 1 wethUsdcUni,
       claimDirectRoute "WETH" "USDC" 1 wethUsdcSushi,
       claimDirectRoute "WETH" "USDC" 1 wethUsdcOneInch] := by
  simp [direct_route_candidates, initialize_pools, poolMatches,
    wethUsdcUni, wethUsdcSushi, wethUsdcOneInch]

lemma weth_usdc_multi_eval :
    multi_hop_candidates initialize_pools "WETH" "USDC" 1 = [] := by
  simp [multi_hop_candidates, intermediate_tokens, hops_via, direct_route_candidates,
    initialize_pools, poolMatches]

lemma weth_usdc_best_eval :
    python_max (claimDirectRoute "WETH" "USDC" 1 wethUsdcUni)
      [claimDirectRoute "WETH" "USDC" 1 wethUsdcSushi,
       claimDirectRoute "WETH" "USDC" 1 wethUsdcOneInch] =
      claimDirectRoute "WETH" "USDC" 1 wethUsdcOneInch := by
  norm_num [python_max, claimDirectRoute, reservesFor, wethUsdcUni, wethUsdcSushi,
    wethUsdcOneInch, List.foldl]

lemma weth_result_eval :
    find_best_swap_route initialize_pools "WETH" "USDC" 1 =
      .success
        (mk_route_details "WETH" "USDC" 1 (claimDirectRoute "WETH" "USDC" 1 wethUsdcOneInch))
        (mk_alternatives
          [claimDirectRoute "WETH" "USDC" 1 wethUsdcUni,
           claimDirectRoute "WETH" "USDC" 1 wethUsdcSushi,
           claimDirectRoute "WETH" "USDC" 1 wethUsdcOneInch]) := by
  rw [find_best_valid_eq initialize_pools "WETH" "USDC" 1 builtin_invariant (by decide)
    (by decide) (by decide) (by norm_num)]
  rw [show normalize_token "WETH" = "WETH" from by decide,
    show normalize_token "USDC" = "USDC" from by decide,
    weth_usdc_direct_eval, weth_usdc_multi_eval]
  simp only [List.append_nil]
  rw [weth_usdc_best_eval]

lemma eth_result_eval :
    find_best_swap_route initialize_pools "ETH" "USDC" 1 =
      .success
        (mk_route_details "ETH" "USDC" 1 (claimDirectRoute "WETH" "USDC" 1 wethUsdcOneInch))
        (mk_alternatives
          [claimDirectRoute "WETH" "USDC" 1 wethUsdcUni,
           claimDirectRoute "WETH" "USDC" 1 wethUsdcSushi,
           claimDirectRoute "WETH" "USDC" 1 wethUsdcOneInch]) := by
  rw [find_best_valid_eq initialize_pools "ETH" "USDC" 1 builtin_invariant (by decide)
    (by decide) (by decide) (by norm_num)]
  rw [show normalize_token "ETH" = "WETH" from by decide,
    show normalize_token "USDC" = "USDC" from by decide,
    weth_usdc_direct_eval, weth_usdc_multi_eval]
  simp only [List.append_nil]
  rw [weth_usdc_best_eval]

/-- C5, counterexample: the full results of `("ETH", "USDC", 1)` and
`("WETH", "USDC", 1)` are not equal — the success payload echoes the
caller's original symbol in `input_token`. -/
theorem eth_weth_full_results_differ :
    find_best_swap_route initialize_pools "ETH" "USDC" 1 ≠
      find_best_swap_route initialize_pools "WETH" "USDC" 1 := by
  rw [eth_result_eval, weth_result_eval]
  simp [mk_route_details]

/-- C5, amended: `("ETH", "USDC", 1)` and `("WETH", "USDC", 1)` produce
results that agree in every field except the `input_token` echo, which holds
the caller's original symbol (`"ETH"` versus `"WETH"`). -/
theorem eth_weth_equal_up_to_input_echo :
    set_input_token "WETH" (find_best_swap_route initialize_pools "ETH" "USDC" 1) =
      find_best_swap_route initialize_pools "WETH" "USDC" 1 ∧
    result_input_token (find_best_swap_route initialize_pools "ETH" "USDC" 1) = some "ETH" ∧
    result_input_token (find_best_swap_route initialize_pools "WETH" "USDC" 1) =
      some "WETH" := by
  rw [eth_result_eval, weth_result_eval]
  refine ⟨?_, rfl, rfl⟩
  simp [set_input_token, mk_route_details]

/-- C7: against the built-in registry — which holds the WETH/USDC pools
with reserves 1000/2000000 fee 0.3 on uniswap, 800/1600000 fee 0.25 on
sushiswap and 1200/2400000 fee 0.1 on 1inch — `("WETH", "USDC", 1)`
succeeds, selects the 1inch pool (`pools = ["1inch:WETH/USDC"]`) and reports
`route_type = "direct"`. -/
theorem builtin_best_weth_usdc :
    wethUsdcUni ∈ initialize_pools ∧ wethUsdcSushi ∈ initialize_pools ∧
    wethUsdcOneInch ∈ initialize_pools ∧
    result_pools (find_best_swap_route initialize_pools "WETH" "USDC" 1) =
      some ["1inch:WETH/USDC"] ∧
    result_route_type (find_best_swap_route initialize_pools "WETH" "USDC" 1) =
      some "direct" := by
  refine ⟨?_, ?_, ?_, ?_, ?_⟩
  · exact List.mem_cons_self _ _
  · simp [initialize_pools, wethUsdcSushi]
  · simp [initialize_pools, wethUsdcOneInch]
  · rw [weth_result_eval]
    simp [result_pools, mk_route_details, claimDirectRoute, poolId, wethUsdcOneInch]
  · rw [weth_result_eval]
    simp [result_route_type, mk_route_details, claimDirectRoute, wethUsdcOneInch]

/-- C3: after the three validation checks pass, the call merges the direct
and multi-hop candidates in that order; an empty merged list yields the
route-not-found failure, and otherwise the returned details are those of a
candidate whose output dominates every candidate and which is the first
maximal one in generation order (`selection_spec`). -/
theorem best_route_selection (f t : String) (a : ℚ)
    (hf : normalize_token f ∈ supported_tokens) (ht : normalize_token t ∈ supported_tokens)
    (hne : normalize_token f ≠ normalize_token t) (ha : 0 < a) :
    selection_spec f t a := by
  unfold selection_spec
  rw [find_best_valid_eq initialize_pools f t a builtin_invariant hf ht hne ha]
  split
  next heq => rfl
  next r rs heq =>
    obtain ⟨l₁, l₂, hdecomp, hlt⟩ := python_max_first r rs
    exact ⟨python_max r rs, mk_alternatives (r :: rs), l₁, l₂, rfl,
      python_max_ge r rs, hdecomp, hlt⟩

theorem best_route_selection_witness : selection_spec "WETH" "USDC" 1 :=
  best_route_selection "WETH" "USDC" 1 (by decide) (by decide) (by decide) (by norm_num)

/-- C10: every successful result echoes the caller's original symbols in
`input_token`/`output_token` while the path holds only normalized symbols
(never `"ETH"`); consequently the `"ETH"` and `"WETH"` success payloads for
the same swap differ exactly in the `input_token` echo. -/
theorem echo_fields_and_normalized_path :
    (∀ f t a, match find_best_swap_route initialize_pools f t a with
      | .success rd _ => rd.input_token = f ∧ rd.output_token = t ∧ "ETH" ∉ rd.path
      | _ => True) ∧
    set_input_token "WETH" (find_best_swap_route initialize_pools "ETH" "USDC" 1) =
      find_best_swap_route initialize_pools "WETH" "USDC" 1 ∧
    result_input_token (find_best_swap_route initialize_pools "ETH" "USDC" 1) =
      some "ETH" ∧
    result_input_token (find_best_swap_route initialize_pools "WETH" "USDC" 1) =
      some "WETH" := by
  refine ⟨?_, ?_, ?_, ?_⟩
  · intro f t a
    cases hres : find_best_swap_route initialize_pools f t a with
    | success rd alts =>
      obtain ⟨best, hmem, hrd⟩ :=
        find_best_success_cases initialize_pools f t a builtin_invariant rd alts hres
      subst hrd
      refine ⟨rfl, rfl, ?_⟩
      show "ETH" ∉ best.path
      rcases List.mem_append.mp hmem with h | h
      · obtain ⟨p, hp, hpm, hpr⟩ := mem_direct_candidates h
        rw [hpr]
        intro hmem2
        rcases List.mem_cons.mp hmem2 with hc | hc
        · exact normalize_token_ne_eth f hc.symm
        · rcases List.mem_cons.mp hc with hc2 | hc2
          · exact normalize_token_ne_eth t hc2.symm
          · simp at hc2
      · obtain ⟨i, hi, hif, hit, fr, sr, hcomb⟩ := mem_multi_candidates h
        have hieth : i ≠ "ETH" := by
          simp only [intermediate_tokens, List.mem_cons, List.not_mem_nil, or_false] at hi
          rcases hi with rfl | rfl | rfl <;> decide
        rw [hcomb]
        intro hmem2
        rcases List.mem_cons.mp hmem2 with hc | hc
        · exact normalize_token_ne_eth f hc.symm
        · rcases List.mem_cons.mp hc with hc2 | hc2
          · exact hieth hc2.symm
          · rcases List.mem_cons.mp hc2 with hc3 | hc3
            · exact normalize_token_ne_eth t hc3.symm
            · simp at hc3
    | unsupportedToken e s => trivial
    | sameToken e => trivial
    | invalidAmount e => trivial
    | routeNotFound e s => trivial
    | internalError e s => trivial
  · rw [eth_result_eval, weth_result_eval]
    simp [set_input_token, mk_route_details]
  · rw [eth_result_eval]
    rfl
  · rw [weth_result_eval]
    rfl

/-- C8: `estimate_gas_cost` is a pure function of the route kind alone —
`50000 * 5 / 10^9 * 2000 = 0.5` USD for direct and `100000 * 5 / 10^9 * 2000
= 1` USD (exactly double) for multi-hop; every direct candidate carries the
direct cost, every multi-hop candidate the multi-hop cost, and every
returned route the cost matching its reported `route_type`, independent of
tokens and amount. -/
theorem gas_cost_model :
    estimate_gas_cost .direct = 1/2 ∧
    estimate_gas_cost .multihop = 1 ∧
    estimate_gas_cost .multihop = 2 * estimate_gas_cost .direct ∧
    (∀ pools f t a, (direct_route_candidates pools f t a).all
      (fun r => decide (r.gas_cost_usd = estimate_gas_cost .direct)) = true) ∧
    (∀ pools f t a, (multi_hop_candidates pools f t a).all
      (fun r => decide (r.gas_cost_usd = estimate_gas_cost .multihop)) = true) ∧
    (∀ f t a, match find_best_swap_route initialize_pools f t a with
      | .success rd _ =>
          (rd.gas_cost_usd = estimate_gas_cost .direct ∧ rd.route_type = "direct") ∨
          (rd.gas_cost_usd = estimate_gas_cost .multihop ∧ rd.route_type = "multi-hop")
      | _ => True) := by
  refine ⟨?_, ?_, ?_, ?_, ?_, ?_⟩
  · norm_num [estimate_gas_cost, token_prices]
  · norm_num [estimate_gas_cost, token_prices]
  · norm_num [estimate_gas_cost, token_prices]
  · intro pools f t a
    rw [List.all_eq_true]
    intro r hr
    obtain ⟨p, hp, hpm, hpr⟩ := mem_direct_candidates hr
    rw [hpr]
    exact decide_eq_true rfl
  · intro pools f t a
    rw [List.all_eq_true]
    intro r hr
    obtain ⟨i, hi, hif, hit, fr, sr, hcomb⟩ := mem_multi_candidates hr
    rw [hcomb]
    exact decide_eq_true rfl
  · intro f t a
    cases hres : find_best_swap_route initialize_pools f t a with
    | success rd alts =>
      obtain ⟨best, hmem, hrd⟩ :=
        find_best_success_cases initialize_pools f t a builtin_invariant rd alts hres
      subst hrd
      rcases List.mem_append.mp hmem with h | h
      · obtain ⟨p, hp, hpm, hpr⟩ := mem_direct_candidates h
        left
        rw [hpr]
        exact ⟨rfl, rfl⟩
      · obtain ⟨i, hi, hif, hit, fr, sr, hcomb⟩ := mem_multi_candidates h
        right
        rw [hcomb]
        exact ⟨rfl, rfl⟩
    | unsupportedToken e s => trivial
    | sameToken e => trivial
    | invalidAmount e => trivial
    | routeNotFound e s => trivial
    | internalError e s => trivial
